import Mathlib

/-!
Verification of `skoot.preprocessing.skewness` (and the parts of
`skoot.utils.validation` it uses) against its natural-language specification.

Numeric values are modelled as real numbers; a column is a `List ℝ`; a pandas
DataFrame is an association list of named columns.  `np.nan` results are
modelled by `Option ℝ` (with `none` for NaN).  Functions that mutate a numpy
buffer in place are additionally given a state-passing embedding that returns
the final contents of the caller's buffer alongside the result; the relevant
numpy semantics are: `np.asarray` applied to an ndarray returns the very same
object (no copy), masked assignment `y[mask] = v` writes into that object in
place, and `a += s` mutates `a` in place.
-/

namespace Skoot

/-- The module-level constant `ZERO = 1E-16` from `skewness.py`. -/
noncomputable def ZERO : ℝ := 1 / 10 ^ 16

/-- The two `x >= 0` cases of the Yeo-Johnson map for a fixed lambda:
`((x + 1) ** lam - 1) / lam` when `lam > ZERO`, else `log(x + 1)`
(cases 1 and 2 of `_yj_transform_y`). -/
noncomputable def yjPos (lam x : ℝ) : ℝ :=
  if ZERO < lam then ((x + 1) ^ lam - 1) / lam
  else Real.log (x + 1)

/-- The two `x < 0` cases of the Yeo-Johnson map for a fixed lambda:
`-log(-x + 1)` when `lam == 2`, else `-(((-x + 1) ** (2 - lam)) - 1) / (2 - lam)`
(cases 4 and 3 of `_yj_transform_y`). -/
noncomputable def yjNeg (lam x : ℝ) : ℝ :=
  if lam = 2 then -Real.log (-x + 1)
  else -((-x + 1) ^ (2 - lam) - 1) / (2 - lam)

/-- Per-element Yeo-Johnson map: the four cases of `_yj_transform_y`
dispatched on the sign of `x` (this also mirrors the commented-out
per-element implementation `_yj_trans_single_x` in the source). -/
noncomputable def yjPoint (lam x : ℝ) : ℝ :=
  if 0 ≤ x then yjPos lam x else yjNeg lam x

/-- One numpy masked assignment `y[mask] = f(y[mask])`: each position whose
mask bit is set is replaced by `f` of its current value. -/
def maskedUpdate : List ℝ → List Bool → (ℝ → ℝ) → List ℝ
  | [], _, _ => []
  | v :: vs, [], _ => v :: vs
  | v :: vs, b :: bs, f => (if b then f v else v) :: maskedUpdate vs bs f

/-- `_yj_transform_y(y, lam)`: the boolean masks are computed once from the
original vector (`gte_zero_mask = y >= 0`, `lt_zero_mask = ~gte_zero_mask`,
and the scalar lambda conditions), then the four masked assignments are
applied sequentially to the vector, which is finally returned. -/
noncomputable def yj_transform_y (y : List ℝ) (lam : ℝ) : List ℝ :=
  let gteZeroMask : List Bool := y.map (fun x => decide (0 ≤ x))
  let ltZeroMask : List Bool := gteZeroMask.map (fun b => !b)
  let lamGtZero : Bool := decide (ZERO < lam)
  let lamEqZero : Bool := !lamGtZero
  let lamEqTwo : Bool := decide (lam = 2)
  let lamNotTwo : Bool := !lamEqTwo
  let y1 := maskedUpdate y (gteZeroMask.map (fun b => b && lamGtZero))
    (fun x => ((x + 1) ^ lam - 1) / lam)
  let y2 := maskedUpdate y1 (gteZeroMask.map (fun b => b && lamEqZero))
    (fun x => Real.log (x + 1))
  let y3 := maskedUpdate y2 (ltZeroMask.map (fun b => b && lamNotTwo))
    (fun x => -((-x + 1) ^ (2 - lam) - 1) / (2 - lam))
  let y4 := maskedUpdate y3 (ltZeroMask.map (fun b => b && lamEqTwo))
    (fun x => -Real.log (-x + 1))
  y4

/-- State-passing view of `_yj_transform_y`: the function receives an ndarray,
performs the masked assignments on that very object (`np.asarray` returns its
argument unchanged when it is already an ndarray) and returns it, so the
result and the final contents of the caller's buffer are the same vector. -/
noncomputable def yj_transform_y_run (y : List ℝ) (lam : ℝ) : List ℝ × List ℝ :=
  let y4 := yj_transform_y y lam
  (y4, y4)

/-- `np.min` over a vector (the source only applies it to nonempty vectors;
the empty case is given the junk value 0). -/
noncomputable def listMin : List ℝ → ℝ
  | [] => 0
  | x :: xs => xs.foldl min x

/-- State-passing embedding of `_yj_llf(data, lmb)`.  Because
`_yj_transform_y` mutates its argument in place and returns it, `data` and
`y_trans` are the SAME buffer after line 86 of the source; consequently
`min_d` and `min_y` are both the minimum of the transformed vector, the two
`+= shift` statements both hit that one buffer, and the final
`np.log(data)` reads the transformed, shifted buffer.  Returns the
log-likelihood (`none` models the `np.nan` sentinel returned when the
population variance is exactly zero) together with the final contents of the
caller's buffer. -/
noncomputable def yj_llf_run (data : List ℝ) (lmb : ℝ) : Option ℝ × List ℝ :=
  let n : ℝ := (data.length : ℝ)
  let buf0 := yj_transform_y data lmb
  let min_d := listMin buf0
  let min_y := listMin buf0
  let buf1 := if min_d < ZERO then buf0.map (fun t => t + (|min_d| + 1)) else buf0
  let buf2 := if min_y < ZERO then buf1.map (fun t => t + (|min_y| + 1)) else buf1
  let y_mean := buf2.sum / n
  let var := (buf2.map (fun t => (t - y_mean) ^ 2 / n)).sum
  if var = 0 then (none, buf2)
  else (some ((lmb - 1) * (buf2.map Real.log).sum - n / 2 * Real.log var), buf2)

/-- Modelled from the spec (section 4.4), for comparison with `yj_llf_run`:
the Yeo-Johnson log-likelihood as the specification states it.  The transform
is taken on a working copy, the `|min| + 1` shifts are applied to local
copies (the raw data shifted when `min(data) < ZERO`, the transformed vector
shifted independently when `min(y) < ZERO`), and the log-sum in the returned
value is over the shifted raw data. -/
noncomputable def yj_llf_spec (data : List ℝ) (lmb : ℝ) : Option ℝ :=
  let n : ℝ := (data.length : ℝ)
  let y := data.map (yjPoint lmb)
  let dShift := if listMin data < ZERO
    then data.map (fun t => t + (|listMin data| + 1)) else data
  let yShift := if listMin y < ZERO
    then y.map (fun t => t + (|listMin y| + 1)) else y
  let y_mean := yShift.sum / n
  let var := (yShift.map (fun t => (t - y_mean) ^ 2 / n)).sum
  if var = 0 then none
  else some ((lmb - 1) * (dShift.map Real.log).sum - n / 2 * Real.log var)

/-- `BoxCoxTransformer._transform_vector(vec, lam)`: floor every value at
`min_value`, then apply the power branch when `lam > ZERO` and the log branch
otherwise. -/
noncomputable def bc_transform_vector (min_value : ℝ) (vec : List ℝ) (lam : ℝ) : List ℝ :=
  let y := vec.map (fun v => max v min_value)
  if ZERO < lam then y.map (fun t => (t ^ lam - 1) / lam)
  else y.map Real.log

end Skoot

namespace Skoot

/-- A pandas DataFrame with numeric columns: an ordered list of named columns.
Values live in ℝ, which models the finite doubles, so the
`assert_all_finite` check of `check_dataframe` is always satisfied here. -/
abbrev DF : Type := List (String × List ℝ)

/-- The column-name index `X.columns`. -/
def dfNames (X : DF) : List String := X.map Prod.fst

/-- Column selection `X[nm]` (first column carrying the name; the empty
column as junk when absent). -/
def dfGet (X : DF) (nm : String) : List ℝ :=
  match X.find? (fun p => p.1 == nm) with
  | some p => p.2
  | none => []

/-- Column assignment `X[nm] = v`: replaces the named column when present,
appends it otherwise. -/
def dfSet (X : DF) (nm : String) (v : List ℝ) : DF :=
  if X.any (fun p => p.1 == nm) then
    X.map (fun p => if p.1 == nm then (p.1, v) else p)
  else X ++ [(nm, v)]

/-- Row count `X.shape[0]` (columns share one row count by the data model). -/
def dfNRows (X : DF) : ℕ :=
  match X with
  | [] => 0
  | p :: _ => p.2.length

/-- Whether an `Except` result is a success. -/
def exceptOk {α : Type} : Except String α → Bool
  | Except.ok _ => true
  | Except.error _ => false

/-- Project the success value of a transform result (junk `[]` on error). -/
def exceptDF : Except String DF → DF
  | Except.ok R => R
  | Except.error _ => []

/-- Error message of `check_dataframe` when a requested column is absent. -/
def errColsMissing : String := "All columns in cols must be present in X"

/-- Error message of `validate_multiple_rows`. -/
def errTooFewSamples : String := "requires at least two samples"

/-- Error message of `validate_test_set_columns`. -/
def errFitColsMissing : String := "Not all fit columns present in test data"

/-- `check_dataframe(X, cols, assert_all_finite=True)` from
`skoot/utils/validation.py`, restricted to DataFrame inputs: checks that
every requested column is present (raising otherwise), resolves the target
columns to `X.columns` when none were requested, and returns a copy of `X`
(`X_copy = X.copy()` — a fresh buffer, so later in-place writes on the
returned frame never reach the caller's frame) together with the resolved
column list.  The finiteness assertion is vacuous over ℝ. -/
def checkDataframe (X : DF) (cols : Option (List String)) :
    Except String (DF × List String) :=
  match cols with
  | some cs =>
      if cs.all (fun c => (dfNames X).contains c) then Except.ok (X, cs)
      else Except.error errColsMissing
  | none => Except.ok (X, dfNames X)

/-- `validate_multiple_rows`: fails unless the frame has at least 2 rows. -/
def validateMultipleRows (X : DF) : Except String Unit :=
  if dfNRows X < 2 then Except.error errTooFewSamples else Except.ok ()

/-- `validate_test_set_columns`: fails unless every fit column is present. -/
def validateTestSetColumns (fitColumns : List String) (testColumns : List String) :
    Except String Unit :=
  if fitColumns.all (fun t => testColumns.contains t) then Except.ok ()
  else Except.error errFitColsMissing

/-- The transform loop of `_BaseSkewnessTransformer.transform`:
`for nm, lam in zip(cols, lambdas_): X[nm] = self._transform_vector(X[nm], lam)`,
parametric in the variant-specific `_transform_vector`. -/
def applyFitCols (tv : List ℝ → ℝ → List ℝ) (L : List (String × ℝ)) (X : DF) : DF :=
  L.foldl (fun acc p => dfSet acc p.1 (tv (dfGet acc p.1) p.2)) X

/-- `_BaseSkewnessTransformer.transform(X)` for a fitted transformer holding
`fit_cols_ = fitCols` and `lambda_ = lambdas`, with constructor argument
`cols = colsArg` (the `as_df=True` return path): validate, then run the
transform loop on the copy produced by `check_dataframe`. -/
def transformCode (tv : List ℝ → ℝ → List ℝ) (fitCols : List String)
    (lambdas : List ℝ) (colsArg : Option (List String)) (X : DF) :
    Except String DF :=
  match checkDataframe X colsArg with
  | Except.error e => Except.error e
  | Except.ok (Xc, _resolved) =>
    match validateTestSetColumns fitCols (dfNames Xc) with
    | Except.error e => Except.error e
    | Except.ok _ => Except.ok (applyFitCols tv (fitCols.zip lambdas) Xc)

/-- State-passing view of `transform`: alongside the result it returns the
final contents of the caller's frame, which the source never writes to — the
in-place column assignments all land on the copy made inside
`check_dataframe` (`X_copy = X.copy()`). -/
def transformCodeRun (tv : List ℝ → ℝ → List ℝ) (fitCols : List String)
    (lambdas : List ℝ) (colsArg : Option (List String)) (X : DF) :
    Except String DF × DF :=
  (transformCode tv fitCols lambdas colsArg X, X)

/-- `_BaseSkewnessTransformer._fit(X, estimation_function)`: validate the
frame and the row count, then compute one lambda per resolved column.  The
parallel dispatch `Parallel(n_jobs)(delayed(est)(X[i]) for i in cols)` is
modelled by `List.map` over the resolved columns, which is joblib's
observable contract: results are returned in generator (submission) order,
independent of worker completion order.  Returns the stored fitted state
`(lambda_, fit_cols_)`. -/
def fitCode (est : List ℝ → ℝ) (colsArg : Option (List String)) (X : DF) :
    Except String (List ℝ × List String) :=
  match checkDataframe X colsArg with
  | Except.error e => Except.error e
  | Except.ok (Xc, cols) =>
    match validateMultipleRows Xc with
    | Except.error e => Except.error e
    | Except.ok _ => Except.ok (cols.map (fun i => est (dfGet Xc i)), cols)

end Skoot

namespace Skoot

lemma maskedUpdate_cons (v : ℝ) (vs : List ℝ) (b : Bool) (bs : List Bool) (f : ℝ → ℝ) :
    maskedUpdate (v :: vs) (b :: bs) f = (if b then f v else v) :: maskedUpdate vs bs f := rfl

lemma yj_transform_y_nil (lam : ℝ) : yj_transform_y [] lam = [] := rfl

lemma yj_transform_y_cons (lam x : ℝ) (xs : List ℝ) :
    yj_transform_y (x :: xs) lam = yjPoint lam x :: yj_transform_y xs lam := by
  simp only [yj_transform_y, List.map_cons, maskedUpdate_cons]
  rcases le_or_lt 0 x with hx | hx
  · by_cases hl : ZERO < lam
    · simp [yjPoint, yjPos, hx, hl]
    · simp [yjPoint, yjPos, hx, hl]
  · by_cases h2 : lam = 2
    · simp [yjPoint, yjNeg, not_le.mpr hx, h2]
    · simp [yjPoint, yjNeg, not_le.mpr hx, h2]

lemma yj_transform_y_eq_map (y : List ℝ) (lam : ℝ) :
    yj_transform_y y lam = y.map (yjPoint lam) := by
  induction y with
  | nil => rfl
  | cons x xs ih => rw [yj_transform_y_cons, ih, List.map_cons]

lemma yjPoint_case1 (lam x : ℝ) (hx : 0 ≤ x) (hl : ZERO < lam) :
    yjPoint lam x = ((x + 1) ^ lam - 1) / lam := by
  simp [yjPoint, yjPos, hx, hl]

lemma yjPoint_case2 (lam x : ℝ) (hx : 0 ≤ x) (hl : lam ≤ ZERO) :
    yjPoint lam x = Real.log (x + 1) := by
  simp [yjPoint, yjPos, hx, not_lt.mpr hl]

lemma yjPoint_case3 (lam x : ℝ) (hx : x < 0) (h2 : lam ≠ 2) :
    yjPoint lam x = -((-x + 1) ^ (2 - lam) - 1) / (2 - lam) := by
  simp [yjPoint, yjNeg, not_le.mpr hx, h2]

lemma yjPoint_case4 (lam x : ℝ) (hx : x < 0) (h2 : lam = 2) :
    yjPoint lam x = -Real.log (-x + 1) := by
  simp [yjPoint, yjNeg, not_le.mpr hx, h2]

/-- C2: for every finite value `x` and every lambda, the Yeo-Johnson piecewise
transform computes `((x+1)^lam - 1)/lam` when `x >= 0` and `lam > ZERO`,
`ln(x+1)` when `x >= 0` and `lam <= ZERO`,
`-(((-x+1)^(2-lam)) - 1)/(2-lam)` when `x < 0` and `lam ≠ 2`, and
`-ln(-x+1)` when `x < 0` and `lam = 2`; the four branches are mutually
exclusive and jointly exhaustive over all finite `x`, and the masked
vectorized computation agrees elementwise with the per-element map. -/
theorem yj_transform_masked_eq_pointwise (y : List ℝ) (lam : ℝ) :
    yj_transform_y y lam = y.map (yjPoint lam) ∧
    (∀ x : ℝ, 0 ≤ x → ZERO < lam → yjPoint lam x = ((x + 1) ^ lam - 1) / lam) ∧
    (∀ x : ℝ, 0 ≤ x → lam ≤ ZERO → yjPoint lam x = Real.log (x + 1)) ∧
    (∀ x : ℝ, x < 0 → lam ≠ 2 → yjPoint lam x = -((-x + 1) ^ (2 - lam) - 1) / (2 - lam)) ∧
    (∀ x : ℝ, x < 0 → lam = 2 → yjPoint lam x = -Real.log (-x + 1)) ∧
    (∀ x : ℝ,
      ((0 ≤ x ∧ ZERO < lam) ∨ (0 ≤ x ∧ lam ≤ ZERO) ∨
        (x < 0 ∧ lam ≠ 2) ∨ (x < 0 ∧ lam = 2)) ∧
      ¬((0 ≤ x ∧ ZERO < lam) ∧ (0 ≤ x ∧ lam ≤ ZERO)) ∧
      ¬((0 ≤ x ∧ ZERO < lam) ∧ (x < 0 ∧ lam ≠ 2)) ∧
      ¬((0 ≤ x ∧ ZERO < lam) ∧ (x < 0 ∧ lam = 2)) ∧
      ¬((0 ≤ x ∧ lam ≤ ZERO) ∧ (x < 0 ∧ lam ≠ 2)) ∧
      ¬((0 ≤ x ∧ lam ≤ ZERO) ∧ (x < 0 ∧ lam = 2)) ∧
      ¬((x < 0 ∧ lam ≠ 2) ∧ (x < 0 ∧ lam = 2))) := by
  refine ⟨yj_transform_y_eq_map y lam, yjPoint_case1 lam, yjPoint_case2 lam,
    yjPoint_case3 lam, yjPoint_case4 lam, fun x => ⟨?_, ?_, ?_, ?_, ?_, ?_, ?_⟩⟩
  · rcases le_or_lt 0 x with hx | hx
    · rcases lt_or_le ZERO lam with hl | hl
      · exact Or.inl ⟨hx, hl⟩
      · exact Or.inr (Or.inl ⟨hx, hl⟩)
    · by_cases h2 : lam = 2
      · exact Or.inr (Or.inr (Or.inr ⟨hx, h2⟩))
      · exact Or.inr (Or.inr (Or.inl ⟨hx, h2⟩))
  · rintro ⟨⟨_, h1⟩, ⟨_, h2⟩⟩; exact absurd h1 (not_lt.mpr h2)
  · rintro ⟨⟨h1, _⟩, ⟨h2, _⟩⟩; exact absurd h1 (not_le.mpr h2)
  · rintro ⟨⟨h1, _⟩, ⟨h2, _⟩⟩; exact absurd h1 (not_le.mpr h2)
  · rintro ⟨⟨h1, _⟩, ⟨h2, _⟩⟩; exact absurd h1 (not_le.mpr h2)
  · rintro ⟨⟨h1, _⟩, ⟨h2, _⟩⟩; exact absurd h1 (not_le.mpr h2)
  · rintro ⟨⟨_, h1⟩, ⟨_, h2⟩⟩; exact h1 h2

/-- Witness for C2 at `x = 1`, `lam = 2`. -/
theorem yj_transform_masked_eq_pointwise_witness :
    (0:ℝ) ≤ 1 ∧ ZERO < (2:ℝ) ∧ yjPoint 2 1 = (((1:ℝ) + 1) ^ (2:ℝ) - 1) / 2 :=
  ⟨by norm_num, by norm_num [ZERO],
    (yj_transform_masked_eq_pointwise [] 2).2.1 1 (by norm_num) (by norm_num [ZERO])⟩

end Skoot

namespace Skoot

/-- C5: the Box-Cox forward transform first floors every value at
`min_value`, then returns `(y ^ lam - 1) / lam` for each floored value when
`lam > ZERO` and `ln y` of each floored value when `lam <= ZERO`; the
threshold `ZERO` is `1e-16`. -/
theorem bc_transform_floors_then_branches (min_value lam : ℝ) (vec : List ℝ) :
    bc_transform_vector min_value vec lam =
      vec.map (fun v =>
        if ZERO < lam then ((max v min_value) ^ lam - 1) / lam
        else Real.log (max v min_value)) ∧
    ZERO = 1e-16 := by
  constructor
  · by_cases h : ZERO < lam <;>
      simp [bc_transform_vector, h, List.map_map, Function.comp]
  · norm_num [ZERO]

lemma yjPos_zero (lam : ℝ) : yjPos lam 0 = 0 := by
  unfold yjPos
  by_cases h : ZERO < lam
  · simp [h, Real.one_rpow]
  · simp [h]

lemma yjNeg_zero (lam : ℝ) : yjNeg lam 0 = 0 := by
  unfold yjNeg
  by_cases h : lam = 2
  · simp [h]
  · simp [h, Real.one_rpow]

lemma yjPoint_zero (lam : ℝ) : yjPoint lam 0 = 0 := by
  rw [yjPoint, if_pos le_rfl, yjPos_zero]

lemma continuousAt_yjPos (lam : ℝ) : ContinuousAt (yjPos lam) 0 := by
  have h1 : ContinuousAt (fun x : ℝ => x + 1) 0 := continuousAt_id.add continuousAt_const
  unfold yjPos
  by_cases h : ZERO < lam
  · simp only [if_pos h]
    have h2 : ContinuousAt (fun x : ℝ => (x + 1) ^ lam) 0 :=
      h1.rpow_const (Or.inl (by norm_num))
    exact (h2.sub continuousAt_const).div_const lam
  · simp only [if_neg h]
    exact h1.log (by norm_num)

lemma continuousAt_yjNeg (lam : ℝ) : ContinuousAt (yjNeg lam) 0 := by
  have h1 : ContinuousAt (fun x : ℝ => -x + 1) 0 := continuousAt_id.neg.add continuousAt_const
  unfold yjNeg
  by_cases h : lam = 2
  · simp only [if_pos h]
    exact (h1.log (by norm_num)).neg
  · simp only [if_neg h]
    have h2 : ContinuousAt (fun x : ℝ => (-x + 1) ^ (2 - lam)) 0 :=
      h1.rpow_const (Or.inl (by norm_num))
    exact ((h2.sub continuousAt_const).neg).div_const (2 - lam)

/-- C9: for every lambda, the Yeo-Johnson per-element transform maps `x = 0`
to exactly `0` (both nonnegative-branch formulas give `0` at `x = 0`, and the
negative-branch formulas give `0` in the limit), and the transform is
continuous at `x = 0`. -/
theorem yj_point_zero_and_continuous (lam : ℝ) :
    yjPoint lam 0 = 0 ∧ yjPos lam 0 = 0 ∧ yjNeg lam 0 = 0 ∧
    ContinuousAt (yjPoint lam) 0 := by
  refine ⟨yjPoint_zero lam, yjPos_zero lam, yjNeg_zero lam, ?_⟩
  have hpos : ContinuousWithinAt (yjPoint lam) (Set.Ici 0) 0 := by
    apply ((continuousAt_yjPos lam).continuousWithinAt).congr
    · intro t ht
      simp [yjPoint, Set.mem_Ici.mp ht]
    · rw [yjPoint_zero, yjPos_zero]
  have hneg : ContinuousWithinAt (yjPoint lam) (Set.Iio 0) 0 := by
    apply ((continuousAt_yjNeg lam).continuousWithinAt).congr
    · intro t ht
      simp [yjPoint, not_le.mpr (Set.mem_Iio.mp ht)]
    · rw [yjPoint_zero, yjNeg_zero]
  have hu := hneg.union hpos
  rw [Set.Iio_union_Ici] at hu
  exact (continuousWithinAt_univ (yjPoint lam) 0).mp hu

end Skoot

namespace Skoot

lemma rpow_coe_two (x : ℝ) : x ^ (2:ℝ) = x ^ (2:ℕ) := by
  rw [show (2:ℝ) = ((2:ℕ):ℝ) by norm_num, Real.rpow_natCast]

lemma yjPoint_two_zero : yjPoint 2 0 = 0 := yjPoint_zero 2

lemma yjPoint_two_one : yjPoint 2 1 = 3 / 2 := by
  rw [yjPoint_case1 2 1 (by norm_num) (by norm_num [ZERO])]
  rw [show ((1:ℝ) + 1) = 2 by norm_num, rpow_coe_two]
  norm_num

lemma yj_transform_eval_01 : yj_transform_y [0, 1] 2 = [0, 3 / 2] := by
  rw [yj_transform_y_eq_map]
  simp [yjPoint_two_zero, yjPoint_two_one]

lemma listMin_0_32 : listMin [(0:ℝ), 3 / 2] = 0 := by
  norm_num [listMin, min_def]

lemma listMin_0_1 : listMin [(0:ℝ), 1] = 0 := by
  norm_num [listMin, min_def]

lemma yj_llf_run_eval :
    yj_llf_run [0, 1] 2 =
      (some (Real.log 2 + Real.log (7 / 2) - Real.log (9 / 16)), [2, 7 / 2]) := by
  simp only [yj_llf_run]
  rw [yj_transform_eval_01, listMin_0_32]
  have hz : (0:ℝ) < ZERO := by norm_num [ZERO]
  simp only [hz, if_true, abs_zero, List.map_cons, List.map_nil, List.sum_cons,
    List.sum_nil, List.length_cons, List.length_nil]
  norm_num

end Skoot

namespace Skoot

lemma yj_llf_spec_eval :
    yj_llf_spec [0, 1] 2 = some (Real.log 2 - Real.log (9 / 16)) := by
  simp only [yj_llf_spec]
  rw [show ([(0:ℝ), 1]).map (yjPoint 2) = [0, 3 / 2] by
    simp [yjPoint_two_zero, yjPoint_two_one]]
  rw [listMin_0_1, listMin_0_32]
  have hz : (0:ℝ) < ZERO := by norm_num [ZERO]
  simp only [hz, if_true, abs_zero, List.map_cons, List.map_nil, List.sum_cons,
    List.sum_nil, List.length_cons, List.length_nil]
  norm_num

/-- C1: FALSIFIED on the code.  At `data = [0, 1]`, `lambda = 2` the code's
log-likelihood is `log 2 + log (7/2) - log (9/16)` — the log-sum is taken
over the transformed and twice-shifted buffer (because `_yj_transform_y`
mutates `data` in place and returns it, so `data` aliases `y_trans`) — while
the claimed formula `(lambda - 1) * sum(ln(shifted raw data)) -
(n/2) * ln(var)` gives `log 2 - log (9/16)`. -/
theorem yj_llf_diverges_from_spec :
    (yj_llf_run [0, 1] 2).1 = some (Real.log 2 + Real.log (7 / 2) - Real.log (9 / 16)) ∧
    yj_llf_spec [0, 1] 2 = some (Real.log 2 - Real.log (9 / 16)) ∧
    (yj_llf_run [0, 1] 2).1 ≠ yj_llf_spec [0, 1] 2 := by
  refine ⟨by rw [yj_llf_run_eval], yj_llf_spec_eval, ?_⟩
  rw [yj_llf_run_eval, yj_llf_spec_eval]
  intro h
  have h2 := Option.some.inj h
  have h4 : (0:ℝ) < Real.log (7 / 2) := Real.log_pos (by norm_num)
  linarith

/-- C3: FALSIFIED on the code.  Computing the Yeo-Johnson log-likelihood at
`data = [0, 1]`, `lambda = 2` leaves the caller's array holding
`[2, 7/2]` (the transformed, twice-shifted values), not the original
`[0, 1]`: the shifts are applied to the caller's buffer, not to local
copies. -/
theorem yj_llf_mutates_caller_buffer :
    (yj_llf_run [0, 1] 2).2 = [2, 7 / 2] ∧ (yj_llf_run [0, 1] 2).2 ≠ [0, 1] := by
  rw [yj_llf_run_eval]
  refine ⟨rfl, ?_⟩
  intro h
  have h1 := congrArg (fun l => List.headI l) h
  simp only [List.headI] at h1
  norm_num at h1

/-- C4: FALSIFIED on the code.  `_yj_transform_y` is not a pure function
returning a new column: on input `y = [1]`, `lambda = 2` it writes the
transformed value `3/2` into the caller's buffer (masked assignment on the
aliased ndarray) and returns that same buffer. -/
theorem yj_transform_mutates_input :
    (yj_transform_y_run [1] 2).1 = (yj_transform_y_run [1] 2).2 ∧
    (yj_transform_y_run [1] 2).2 = [3 / 2] ∧
    (yj_transform_y_run [1] 2).2 ≠ [1] := by
  have he : yj_transform_y [1] 2 = [3 / 2] := by
    rw [yj_transform_y_eq_map]
    simp [yjPoint_two_one]
  refine ⟨rfl, ?_, ?_⟩
  · simp only [yj_transform_y_run]
    rw [he]
  · simp only [yj_transform_y_run]
    rw [he]
    intro h
    have h1 := congrArg (fun l => List.headI l) h
    simp only [List.headI] at h1
    norm_num at h1

end Skoot


namespace Skoot

lemma mem_dfNames_iff_any (X : DF) (nm : String) :
    (X.any fun p => p.1 == nm) = true ↔ nm ∈ dfNames X := by
  simp [List.any_eq_true, dfNames, List.mem_map]

lemma dfGet_cons (p : String × List ℝ) (X : DF) (nm : String) :
    dfGet (p :: X) nm = if p.1 = nm then p.2 else dfGet X nm := by
  by_cases h : p.1 = nm
  · simp [dfGet, List.find?_cons_of_pos, h]
  · simp only [dfGet]
    rw [List.find?_cons_of_neg]
    · rw [if_neg h]
    · simp [h]

lemma dfNames_map_set (X : DF) (nm : String) (v : List ℝ) :
    dfNames (X.map (fun p => if p.1 == nm then (p.1, v) else p)) = dfNames X := by
  induction X with
  | nil => rfl
  | cons p X ih =>
      by_cases hp : p.1 = nm
      · simp only [List.map_cons, dfNames, if_pos (by simp [hp] : (p.1 == nm) = true)]
        rw [show (p.1, v).1 = p.1 from rfl]
        simp only [dfNames] at ih
        rw [ih]
      · simp only [List.map_cons, dfNames, if_neg (by simp [hp] : ¬((p.1 == nm) = true))]
        simp only [dfNames] at ih
        rw [ih]

lemma dfGet_map_set_self (X : DF) (nm : String) (v : List ℝ) (h : nm ∈ dfNames X) :
    dfGet (X.map (fun p => if p.1 == nm then (p.1, v) else p)) nm = v := by
  induction X with
  | nil => simp [dfNames] at h
  | cons p X ih =>
      by_cases hp : p.1 = nm
      · simp only [List.map_cons, if_pos (by simp [hp] : (p.1 == nm) = true)]
        rw [dfGet_cons]
        simp [hp]
      · simp only [List.map_cons, if_neg (by simp [hp] : ¬((p.1 == nm) = true))]
        rw [dfGet_cons, if_neg hp]
        apply ih
        simp only [dfNames, List.map_cons, List.mem_cons] at h
        rcases h with h | h
        · exact absurd h.symm hp
        · exact h

lemma dfGet_map_set_ne (X : DF) (nm q : String) (v : List ℝ) (hq : q ≠ nm) :
    dfGet (X.map (fun p => if p.1 == nm then (p.1, v) else p)) q = dfGet X q := by
  induction X with
  | nil => rfl
  | cons p X ih =>
      by_cases hp : p.1 = nm
      · simp only [List.map_cons, if_pos (by simp [hp] : (p.1 == nm) = true)]
        rw [dfGet_cons, dfGet_cons]
        rw [show ((p.1, v) : String × List ℝ).1 = p.1 from rfl]
        rw [if_neg (by rw [hp]; exact fun he => hq he.symm),
          if_neg (by rw [hp]; exact fun he => hq he.symm)]
        exact ih
      · simp only [List.map_cons, if_neg (by simp [hp] : ¬((p.1 == nm) = true))]
        rw [dfGet_cons, dfGet_cons]
        by_cases hpq : p.1 = q
        · rw [if_pos hpq, if_pos hpq]
        · rw [if_neg hpq, if_neg hpq]
          exact ih

lemma dfGet_append_ne (X : DF) (nm q : String) (v : List ℝ) (hq : q ≠ nm) :
    dfGet (X ++ [(nm, v)]) q = dfGet X q := by
  induction X with
  | nil =>
      simp only [List.nil_append]
      rw [dfGet_cons]
      rw [show ((nm, v) : String × List ℝ).1 = nm from rfl]
      rw [if_neg (fun he => hq he.symm)]
  | cons p X ih =>
      simp only [List.cons_append]
      rw [dfGet_cons, dfGet_cons]
      by_cases hpq : p.1 = q
      · rw [if_pos hpq, if_pos hpq]
      · rw [if_neg hpq, if_neg hpq]
        exact ih

lemma dfNames_dfSet (X : DF) (nm : String) (v : List ℝ) (h : nm ∈ dfNames X) :
    dfNames (dfSet X nm v) = dfNames X := by
  rw [dfSet, if_pos ((mem_dfNames_iff_any X nm).mpr h)]
  exact dfNames_map_set X nm v

lemma dfGet_dfSet_self (X : DF) (nm : String) (v : List ℝ) (h : nm ∈ dfNames X) :
    dfGet (dfSet X nm v) nm = v := by
  rw [dfSet, if_pos ((mem_dfNames_iff_any X nm).mpr h)]
  exact dfGet_map_set_self X nm v h

lemma dfGet_dfSet_ne (X : DF) (nm q : String) (v : List ℝ) (hq : q ≠ nm) :
    dfGet (dfSet X nm v) q = dfGet X q := by
  rw [dfSet]
  by_cases hb : X.any (fun p => p.1 == nm) = true
  · rw [if_pos hb]
    exact dfGet_map_set_ne X nm q v hq
  · rw [if_neg hb]
    exact dfGet_append_ne X nm q v hq

lemma foldl_dfSet_props (tv : List ℝ → ℝ → List ℝ) :
    ∀ (L : List (String × ℝ)) (X : DF),
      (L.map Prod.fst).Nodup →
      (∀ p ∈ L, p.1 ∈ dfNames X) →
      dfNames (L.foldl (fun acc p => dfSet acc p.1 (tv (dfGet acc p.1) p.2)) X) = dfNames X ∧
      (∀ p ∈ L,
        dfGet (L.foldl (fun acc p => dfSet acc p.1 (tv (dfGet acc p.1) p.2)) X) p.1 =
          tv (dfGet X p.1) p.2) ∧
      (∀ nm, nm ∉ L.map Prod.fst →
        dfGet (L.foldl (fun acc p => dfSet acc p.1 (tv (dfGet acc p.1) p.2)) X) nm =
          dfGet X nm) := by
  intro L
  induction L with
  | nil =>
      intro X _ _
      exact ⟨rfl, by simp, fun nm _ => rfl⟩
  | cons q L ih =>
      intro X hnd hmem
      have hq : q.1 ∈ dfNames X := hmem q (List.mem_cons_self q L)
      have hqn : q.1 ∉ L.map Prod.fst := by
        simp only [List.map_cons, List.nodup_cons] at hnd
        exact hnd.1
      have hndL : (L.map Prod.fst).Nodup := by
        simp only [List.map_cons, List.nodup_cons] at hnd
        exact hnd.2
      have hX1names : dfNames (dfSet X q.1 (tv (dfGet X q.1) q.2)) = dfNames X :=
        dfNames_dfSet X q.1 (tv (dfGet X q.1) q.2) hq
      have hmem1 : ∀ p ∈ L, p.1 ∈ dfNames (dfSet X q.1 (tv (dfGet X q.1) q.2)) := by
        intro p hp
        rw [hX1names]
        exact hmem p (List.mem_cons_of_mem q hp)
      obtain ⟨hN, hG, hF⟩ := ih (dfSet X q.1 (tv (dfGet X q.1) q.2)) hndL hmem1
      rw [List.foldl_cons]
      refine ⟨hN.trans hX1names, ?_, ?_⟩
      · intro p hp
        rcases List.mem_cons.mp hp with hp | hp
        · subst hp
          rw [hF p.1 hqn]
          exact dfGet_dfSet_self X p.1 (tv (dfGet X p.1) p.2) hq
        · have hne : p.1 ≠ q.1 := by
            intro he
            exact hqn (he ▸ List.mem_map_of_mem Prod.fst hp)
          rw [hG p hp, dfGet_dfSet_ne X q.1 p.1 (tv (dfGet X q.1) q.2) hne]
      · intro nm hnm
        simp only [List.map_cons, List.mem_cons, not_or] at hnm
        rw [hF nm hnm.2, dfGet_dfSet_ne X q.1 nm (tv (dfGet X q.1) q.2) hnm.1]

end Skoot

namespace Skoot

lemma contains_eq_true_of_mem (l : List String) (a : String) (h : a ∈ l) :
    l.contains a = true := by
  simp [h]

lemma checkDataframe_ok (X : DF) (colsArg : Option (List String))
    (hcols : ∀ cs ∈ colsArg, ∀ c ∈ cs, c ∈ dfNames X) :
    checkDataframe X colsArg = Except.ok (X, colsArg.getD (dfNames X)) := by
  cases colsArg with
  | none => rfl
  | some cs =>
      simp only [checkDataframe, Option.getD_some]
      rw [if_pos]
      simp only [List.all_eq_true]
      intro c hc
      exact contains_eq_true_of_mem (dfNames X) c (hcols cs rfl c hc)

lemma validateTestSetColumns_ok (fitCols names : List String)
    (h : ∀ c ∈ fitCols, c ∈ names) :
    validateTestSetColumns fitCols names = Except.ok () := by
  rw [validateTestSetColumns, if_pos]
  simp only [List.all_eq_true]
  intro c hc
  exact contains_eq_true_of_mem names c (h c hc)

/-- C7: for a fitted transformer (duplicate-free fit columns matching the
stored lambdas, per the Fitted Model invariant) and a valid input table,
`transform` returns a new table in which exactly the fit-time columns are
replaced by their transformed values under the positionally corresponding
stored lambdas, every other column passes through unchanged, and the
caller's table is left unmodified (the loop writes only to the copy made by
`check_dataframe`). -/
theorem transform_replaces_exactly_fit_cols (tv : List ℝ → ℝ → List ℝ)
    (fitCols : List String) (lambdas : List ℝ) (colsArg : Option (List String)) (X : DF)
    (hnd : fitCols.Nodup) (hlen : fitCols.length = lambdas.length)
    (hfit : ∀ c ∈ fitCols, c ∈ dfNames X)
    (hcols : ∀ cs ∈ colsArg, ∀ c ∈ cs, c ∈ dfNames X) :
    transformCodeRun tv fitCols lambdas colsArg X =
      (Except.ok (applyFitCols tv (fitCols.zip lambdas) X), X) ∧
    dfNames (applyFitCols tv (fitCols.zip lambdas) X) = dfNames X ∧
    (∀ p ∈ fitCols.zip lambdas,
      dfGet (applyFitCols tv (fitCols.zip lambdas) X) p.1 = tv (dfGet X p.1) p.2) ∧
    (∀ nm, nm ∉ fitCols →
      dfGet (applyFitCols tv (fitCols.zip lambdas) X) nm = dfGet X nm) := by
  have hmapfst : (fitCols.zip lambdas).map Prod.fst = fitCols :=
    List.map_fst_zip fitCols lambdas (le_of_eq hlen)
  have hndz : ((fitCols.zip lambdas).map Prod.fst).Nodup := by
    rw [hmapfst]
    exact hnd
  have hmemz : ∀ p ∈ fitCols.zip lambdas, p.1 ∈ dfNames X := fun p hp =>
    hfit p.1 (List.of_mem_zip hp).1
  obtain ⟨hN, hG, hF⟩ := foldl_dfSet_props tv (fitCols.zip lambdas) X hndz hmemz
  refine ⟨?_, hN, hG, ?_⟩
  · simp only [transformCodeRun, transformCode,
      checkDataframe_ok X colsArg hcols,
      validateTestSetColumns_ok fitCols (dfNames X) hfit, applyFitCols]
  · intro nm hnm
    exact hF nm (by rw [hmapfst]; exact hnm)

/-- Witness for C7 on a two-column table with one fit column. -/
theorem transform_replaces_exactly_fit_cols_witness :
    transformCodeRun (fun l _ => l) ["a"] [2] none [("a", [1]), ("b", [2])] =
      (Except.ok (applyFitCols (fun l _ => l) (["a"].zip [2]) [("a", [1]), ("b", [2])]),
        [("a", [1]), ("b", [2])]) ∧
    dfGet (applyFitCols (fun l _ => l) (["a"].zip [2]) [("a", [1]), ("b", [2])]) "a" = [1] ∧
    dfGet (applyFitCols (fun l _ => l) (["a"].zip [2]) [("a", [1]), ("b", [2])]) "b" = [2] := by
  obtain ⟨h1, h2, h3, h4⟩ := transform_replaces_exactly_fit_cols (fun l _ => l)
    ["a"] [2] none [("a", [1]), ("b", [2])] (by simp) rfl
    (by simp [dfNames])
    (by intro cs hcs; exact absurd hcs (Option.not_mem_none cs))
  refine ⟨h1, ?_, ?_⟩
  · have h5 := h3 ("a", 2) (by simp)
    rw [h5]
    rfl
  · have h6 := h4 "b" (by simp)
    rw [h6]
    rfl

end Skoot

namespace Skoot

/-- C8 counterexample: fitting succeeds when the user requests the duplicated
column list `["a", "a"]` on a table with one column `"a"` of two rows, and
the stored fit-column list is then `["a", "a"]`, which is NOT duplicate-free
— the code never enforces the uniqueness half of the claimed invariant. -/
theorem fit_cols_not_unique_counterexample :
    fitCode (fun _ => (0:ℝ)) (some ["a", "a"]) [("a", [1, 2])] =
      Except.ok ([0, 0], ["a", "a"]) ∧
    ¬ (["a", "a"] : List String).Nodup := by
  constructor
  · rfl
  · decide

/-- C8 (amended): after every successful fit, the lambda list has the same
length as the stored fit-column list, the i-th lambda is the estimate for the
i-th resolved target column (resolution order, independent of worker
completion order, which is modelled by joblib's ordered-results contract),
and the stored fit-column list is exactly the resolved target list — the
requested `cols` when given, else the table's column names — so it is
duplicate-free exactly when that list is; uniqueness is not separately
enforced. -/
theorem fit_model_invariants (est : List ℝ → ℝ) (colsArg : Option (List String))
    (X : DF) (lams : List ℝ) (cols : List String)
    (h : fitCode est colsArg X = Except.ok (lams, cols)) :
    lams.length = cols.length ∧
    lams = cols.map (fun c => est (dfGet X c)) ∧
    (∀ cs, colsArg = some cs → cols = cs) ∧
    (colsArg = none → cols = dfNames X) := by
  cases colsArg with
  | none =>
      simp only [fitCode, checkDataframe, validateMultipleRows] at h
      by_cases hrow : dfNRows X < 2
      · rw [if_pos hrow] at h
        exact absurd h (by simp)
      · rw [if_neg hrow] at h
        simp only [Except.ok.injEq, Prod.mk.injEq] at h
        obtain ⟨h1, h2⟩ := h
        subst h1
        subst h2
        refine ⟨by simp, rfl, ?_, fun _ => rfl⟩
        intro cs hcs
        exact absurd hcs (by simp)
  | some cs =>
      simp only [fitCode, checkDataframe, validateMultipleRows] at h
      by_cases hall : (cs.all fun c => (dfNames X).contains c) = true
      · rw [if_pos hall] at h
        simp only [] at h
        by_cases hrow : dfNRows X < 2
        · rw [if_pos hrow] at h
          exact absurd h (by simp)
        · rw [if_neg hrow] at h
          simp only [Except.ok.injEq, Prod.mk.injEq] at h
          obtain ⟨h1, h2⟩ := h
          subst h1
          subst h2
          refine ⟨by simp, rfl, ?_, ?_⟩
          · intro cs2 hcs2
            cases hcs2
            rfl
          · intro hn
            exact absurd hn (by simp)
      · rw [if_neg hall] at h
        exact absurd h (by simp)

/-- Witness for C8's amended theorem: a one-column fit with `cols = None`. -/
theorem fit_model_invariants_witness :
    fitCode (fun _ => (1:ℝ)) none [("a", [1, 2])] = Except.ok ([1], ["a"]) ∧
    ([1] : List ℝ).length = (["a"] : List String).length ∧
    ([1] : List ℝ) =
      (["a"] : List String).map (fun c => (fun _ => (1:ℝ)) (dfGet [("a", [1, 2])] c)) := by
  have h := fit_model_invariants (fun _ => (1:ℝ)) none [("a", [1, 2])] [1] ["a"] rfl
  exact ⟨rfl, h.1, h.2.1⟩

/-- C10: the row-count requirement is enforced only at fit time — on a table
with exactly one row whose columns include all fit-time columns, `transform`
succeeds (the source deliberately skips `validate_multiple_rows` there),
while `fit` on that same table fails with the too-few-samples error. -/
theorem row_check_only_at_fit (tv : List ℝ → ℝ → List ℝ) (fitCols : List String)
    (lambdas : List ℝ) (colsArg : Option (List String)) (X : DF) (est : List ℝ → ℝ)
    (hrow : dfNRows X = 1)
    (hfit : ∀ c ∈ fitCols, c ∈ dfNames X)
    (hcols : ∀ cs ∈ colsArg, ∀ c ∈ cs, c ∈ dfNames X) :
    transformCode tv fitCols lambdas colsArg X =
      Except.ok (applyFitCols tv (fitCols.zip lambdas) X) ∧
    fitCode est colsArg X = Except.error errTooFewSamples := by
  constructor
  · simp only [transformCode, checkDataframe_ok X colsArg hcols,
      validateTestSetColumns_ok fitCols (dfNames X) hfit]
  · simp only [fitCode, checkDataframe_ok X colsArg hcols, validateMultipleRows]
    rw [if_pos (by rw [hrow]; norm_num)]

/-- Witness for C10 on a one-row, one-column table. -/
theorem row_check_only_at_fit_witness :
    dfNRows [("a", [5])] = 1 ∧
    (transformCode (fun l _ => l) ["a"] [1] none [("a", [5])] =
        Except.ok (applyFitCols (fun l _ => l) (["a"].zip [1]) [("a", [5])]) ∧
      fitCode (fun _ => (0:ℝ)) none [("a", [5])] = Except.error errTooFewSamples) := by
  refine ⟨rfl, ?_⟩
  exact row_check_only_at_fit (fun l _ => l) ["a"] [1] none [("a", [5])] (fun _ => 0) rfl
    (by simp [dfNames])
    (by intro cs hcs; exact absurd hcs (Option.not_mem_none cs))

end Skoot
